import Mathlib

/-!
Verification of the geospatial preprocessing and registration-application core
of CODEM (`src/codem/preprocessing/preprocess.py` and
`src/codem/registration/apply.py`) against its natural-language specification.

The Python source is shallowly embedded: numpy arrays become Lean functions or
lists over `ℚ`, raster grids are indexed by natural row/column indices, and the
effectful parts (file system, PDAL pipelines, matplotlib interpolators) are
modelled by explicit state passing or abstract function parameters.  Floating
point numbers are modelled by `ℚ`; NaN cells are modelled by `Option ℚ` where
that matters (`none` plays the role of NaN).
-/

namespace Codem

/-! ## 4x4 matrices (numpy arrays of shape (4,4)) -/

/-- A 4x4 rational matrix, modelling a numpy array of shape `(4, 4)`. -/
def Mat4 : Type := Fin 4 → Fin 4 → ℚ

/-- Matrix product of two 4x4 matrices, modelling numpy's `@` operator. -/
def matMul4 (A B : Mat4) : Mat4 := fun i k => ∑ j : Fin 4, A i j * B j k

/-- Embedding of `np.eye(4) * s` followed by the assignment `M[3, 3] = 1`,
as built in `ApplyRegistration.get_registration_transformation` for
`aoi_to_meters` (with `s = aoi_units_factor`) and `meters_to_fnd`
(with `s = 1 / fnd_units_factor`). -/
def npEyeScaled (s : ℚ) : Mat4 := fun i j =>
  if i = j then (if (i : ℕ) = 3 then 1 else s) else 0

/-- The matrix `diag(s, s, s, 1)`, written the way the specification words it:
a diagonal matrix scaling the three spatial coordinates by `s` and leaving the
homogeneous coordinate alone. -/
def diagScale3 (s : ℚ) : Mat4 := fun i j =>
  if i = j then (if (i : ℕ) < 3 then s else 1) else 0

/-- Row-major flattening of a 4x4 matrix into its 16 entries, modelling
`np.reshape(A, (1, 16))` followed by joining the entries in order into the
PDAL matrix string. -/
def rowMajor16 (M : Mat4) : List ℚ :=
  List.ofFn fun k : Fin 16 => M ⟨(k : ℕ) / 4, by omega⟩ ⟨(k : ℕ) % 4, by omega⟩

/-- Result of `ApplyRegistration.get_registration_transformation`: either the
raw 4x4 numpy matrix (mesh case) or a PDAL `filters.transformation` stage whose
matrix string lists the given entries in order (all other cases). -/
inductive RegistrationResult where
  | rawMatrix (m : Mat4)
  | pdalTransformation (entries : List ℚ)

/-- Embedding of `ApplyRegistration.get_registration_transformation`.
The mutable state read by the method is passed explicitly: `aoi_type`
(`self.aoi_type`), the two units factors and the solver matrix
(`self.registration_transform`). -/
def get_registration_transformation (aoi_type : String)
    (aoi_units_factor fnd_units_factor : ℚ)
    (registration_transform : Mat4) : RegistrationResult :=
  let aoi_to_meters := npEyeScaled aoi_units_factor
  let meters_to_fnd := npEyeScaled (1 / fnd_units_factor)
  let aoi_to_fnd_array :=
    matMul4 meters_to_fnd (matMul4 registration_transform aoi_to_meters)
  if aoi_type = "mesh" then
    RegistrationResult.rawMatrix aoi_to_fnd_array
  else
    RegistrationResult.pdalTransformation (rowMajor16 aoi_to_fnd_array)

lemma npEyeScaled_eq_diagScale3 (s : ℚ) : npEyeScaled s = diagScale3 s := by
  funext i j
  fin_cases i <;> fin_cases j <;> rfl

/-- C1: `get_registration_transformation` computes
`diag(1/fnd_uf, 1/fnd_uf, 1/fnd_uf, 1) * R * diag(aoi_uf, aoi_uf, aoi_uf, 1)`;
for a mesh AOI the raw 4x4 array is returned, and for every other AOI kind
(raster, point cloud) the same matrix is returned as a PDAL transformation
stage whose matrix lists the 16 entries in row-major order. -/
theorem get_registration_transformation_spec (aoi_type : String)
    (aoi_uf fnd_uf : ℚ) (R : Mat4) :
    (aoi_type = "mesh" →
      get_registration_transformation aoi_type aoi_uf fnd_uf R =
        RegistrationResult.rawMatrix
          (matMul4 (diagScale3 (1 / fnd_uf)) (matMul4 R (diagScale3 aoi_uf)))) ∧
    (aoi_type ≠ "mesh" →
      get_registration_transformation aoi_type aoi_uf fnd_uf R =
        RegistrationResult.pdalTransformation
          (rowMajor16
            (matMul4 (diagScale3 (1 / fnd_uf)) (matMul4 R (diagScale3 aoi_uf))))) := by
  unfold get_registration_transformation
  rw [npEyeScaled_eq_diagScale3, npEyeScaled_eq_diagScale3]
  constructor
  · intro h
    simp [h]
  · intro h
    simp [h]

/-- Witness for C1 at concrete inputs: both the mesh branch and the
point-cloud branch, with the all-ones solver matrix and units factors 2, 4. -/
theorem get_registration_transformation_spec_witness :
    (get_registration_transformation "mesh" 2 4 (fun _ _ => 1) =
      RegistrationResult.rawMatrix
        (matMul4 (diagScale3 (1 / 4))
          (matMul4 (fun _ _ => 1) (diagScale3 2)))) ∧
    (get_registration_transformation "pcloud" 2 4 (fun _ _ => 1) =
      RegistrationResult.pdalTransformation
        (rowMajor16
          (matMul4 (diagScale3 (1 / 4))
            (matMul4 (fun _ _ => 1) (diagScale3 2))))) :=
  ⟨(get_registration_transformation_spec "mesh" 2 4 (fun _ _ => 1)).1 rfl,
   (get_registration_transformation_spec "pcloud" 2 4 (fun _ _ => 1)).2
     (by decide)⟩

/-! ## Affine transforms (rasterio.Affine) -/

/-- A 2D affine transform with the six rasterio coefficients:
`x' = a*x + b*y + c`, `y' = d*x + e*y + f`. -/
structure Affine where
  a : ℚ
  b : ℚ
  c : ℚ
  d : ℚ
  e : ℚ
  f : ℚ
  deriving DecidableEq, Repr

/-- Application of an affine transform to a point, modelling
`transform * (x, y)` in rasterio. -/
def Affine.apply (T : Affine) (x y : ℚ) : ℚ × ℚ :=
  (T.a * x + T.b * y + T.c, T.d * x + T.e * y + T.f)

/-! ## C2: GeoData._dsm2pc -/

/-- The row-major list of all (row, column) index pairs of an `h` by `w`
raster.  This is the index order produced by `np.meshgrid(cols, rows)`
followed by `np.reshape(-1)` in `GeoData._dsm2pc`: rows outer, columns
inner. -/
def flatIndices (h w : ℕ) : List (ℕ × ℕ) :=
  (List.range h).flatMap fun r => (List.range w).map fun c => (r, c)

/-- Embedding of `GeoData._dsm2pc`.  The state read by the method is passed
explicitly: the raster shape and values (`self.dsm`), `self.transform`,
`self.area_or_point` and `self.nodata_mask`.  Mirrors the source: build the
flattened pixel-center coordinate grids, offset them by half a pixel in the
`"Area"` convention, push them through the transform, stack with the
flattened raster values, and select the rows where the flattened
`nodata_mask` is true (`xyz[mask]`). -/
def dsm2pc (h w : ℕ) (dsm : ℕ → ℕ → ℚ) (T : Affine) (area_or_point : String)
    (nodata_mask : ℕ → ℕ → Bool) : List (ℚ × ℚ × ℚ) :=
  let off : ℚ := if area_or_point = "Area" then 1 / 2 else 0
  let xyz := (flatIndices h w).map fun rc =>
    let u : ℚ := (rc.2 : ℚ) + off
    let v : ℚ := (rc.1 : ℚ) + off
    ((T.apply u v).1, (T.apply u v).2, dsm rc.1 rc.2)
  let mask := (flatIndices h w).map fun rc => nodata_mask rc.1 rc.2
  ((xyz.zip mask).filter (fun pm => pm.2)).map fun pm => pm.1

lemma countP_range (n : ℕ) (p : ℕ → Bool) :
    (List.range n).countP p = ∑ i ∈ Finset.range n, (if p i then 1 else 0) := by
  induction n with
  | zero => simp
  | succ n ih =>
      rw [List.range_succ, List.countP_append, ih, Finset.sum_range_succ]
      simp [List.countP_cons]

lemma countP_flatIndices (h w : ℕ) (p : ℕ × ℕ → Bool) :
    (flatIndices h w).countP p =
      ∑ r ∈ Finset.range h, ∑ c ∈ Finset.range w, (if p (r, c) then 1 else 0) := by
  induction h with
  | zero => simp [flatIndices]
  | succ h ih =>
      have hsplit : flatIndices (h + 1) w =
          flatIndices h w ++ ((List.range w).map fun c => (h, c)) := by
        simp [flatIndices, List.range_succ]
      rw [hsplit, List.countP_append, ih, Finset.sum_range_succ, List.countP_map,
        countP_range]
      simp [Function.comp]

/-- C2: `_dsm2pc` produces one point per true cell of `nodata_mask`, in
row-major raster order restricted to valid cells: its length is the number of
true mask cells, and the list equals the row-major valid-cell index list
mapped to points whose (x, y) is the transform applied to `(c + 0.5, r + 0.5)`
in the `"Area"` convention and to `(c, r)` otherwise, and whose z is the
raster value at `(r, c)`. -/
theorem dsm2pc_spec (h w : ℕ) (dsm : ℕ → ℕ → ℚ) (T : Affine) (aop : String)
    (mask : ℕ → ℕ → Bool) :
    (dsm2pc h w dsm T aop mask).length =
      (∑ r ∈ Finset.range h, ∑ c ∈ Finset.range w,
        (if mask r c then 1 else 0)) ∧
    dsm2pc h w dsm T aop mask =
      ((flatIndices h w).filter fun rc => mask rc.1 rc.2).map fun rc =>
        let off : ℚ := if aop = "Area" then 1 / 2 else 0
        ((T.apply ((rc.2 : ℚ) + off) ((rc.1 : ℚ) + off)).1,
         (T.apply ((rc.2 : ℚ) + off) ((rc.1 : ℚ) + off)).2,
         dsm rc.1 rc.2) := by
  have key : dsm2pc h w dsm T aop mask =
      ((flatIndices h w).filter fun rc => mask rc.1 rc.2).map fun rc =>
        let off : ℚ := if aop = "Area" then 1 / 2 else 0
        ((T.apply ((rc.2 : ℚ) + off) ((rc.1 : ℚ) + off)).1,
         (T.apply ((rc.2 : ℚ) + off) ((rc.1 : ℚ) + off)).2,
         dsm rc.1 rc.2) := by
    unfold dsm2pc
    dsimp only
    rw [List.zip_map', List.filter_map, List.map_map]
    congr 1
  refine ⟨?_, key⟩
  rw [key, List.length_map, ← List.countP_eq_length_filter,
    countP_flatIndices]

/-! ## C6 / C9: clip_data and compute_clipped_bounds -/

/-- Composition of affine transforms, modelling rasterio's `T1 * T2`
(matrix product of the two 3x3 augmented matrices; the result applies `T2`
first and `T1` second). -/
def Affine.mul (T1 T2 : Affine) : Affine where
  a := T1.a * T2.a + T1.b * T2.d
  b := T1.a * T2.b + T1.b * T2.e
  c := T1.a * T2.c + T1.b * T2.f + T1.c
  d := T1.d * T2.a + T1.e * T2.d
  e := T1.d * T2.b + T1.e * T2.e
  f := T1.d * T2.c + T1.e * T2.f + T1.f

/-- The pure scaling affine `Affine.scale(s)` of rasterio (both axes). -/
def Affine.scaleBoth (s : ℚ) : Affine := ⟨s, 0, 0, 0, s, 0⟩

/-- The translation affine `Affine.translation(tx, ty)` of rasterio. -/
def Affine.translationBy (tx ty : ℚ) : Affine := ⟨1, 0, tx, 0, 1, ty⟩

/-- Inverse of an affine transform, modelling rasterio's `~T` (defined when
the determinant is nonzero; at a zero determinant the `ℚ` convention
`x / 0 = 0` applies, a case never exercised below). -/
def Affine.inv (T : Affine) : Affine :=
  let det := T.a * T.e - T.b * T.d
  ⟨T.e / det, -T.b / det, (T.b * T.f - T.e * T.c) / det,
   -T.d / det, T.a / det, (T.d * T.c - T.a * T.f) / det⟩

/-- A world bounding box with rasterio's field order (left, bottom, right,
top). -/
structure BoundingBox where
  left : ℚ
  bottom : ℚ
  right : ℚ
  top : ℚ
  deriving DecidableEq, Repr

/-- The bounding box built inside `clip_data`'s first loop for one dataset and
one scaling: `transform = dataset.transform * dataset.transform.scale(scaling)`,
then `left, top = transform * (0, 0)` and
`right, bottom = transform * dataset.dsm.shape`.  Note that the code passes
`dsm.shape`, which is `(rows, cols)`, into the transform's (column, row)
slots. -/
def clipBoundingBox (T : Affine) (scaling : ℚ) (shape : ℕ × ℕ) : BoundingBox :=
  let transform := T.mul (Affine.scaleBoth scaling)
  let lt := transform.apply 0 0
  let rb := transform.apply (shape.1 : ℚ) (shape.2 : ℚ)
  ⟨lt.1, rb.2, rb.1, lt.2⟩

/-- The second loop of `clip_data`: adjust the scaled bounding box's left and
top by the expansion observed on right and bottom. -/
def adjustScaledBox (original scaled : BoundingBox) : BoundingBox :=
  let x_expanded := |scaled.right - original.right|
  let y_expanded := |scaled.bottom - original.bottom|
  ⟨scaled.left - x_expanded, scaled.bottom, scaled.right, scaled.top + y_expanded⟩

/-- rasterio's `rasterio.coords.disjoint_bounds`. -/
def disjointBounds (b1 b2 : BoundingBox) : Bool :=
  b1.left > b2.right || b2.left > b1.right || b1.bottom > b2.top || b2.bottom > b1.top

/-- Embedding of `compute_clipped_bounds`: clamp each dataset's original edges
against the other dataset's scaled (inflated) edges, `max` on left/bottom and
`min` on right/top.  Returns (foundation, compliment) clipped boxes. -/
def compute_clipped_bounds (foundation_original foundation_scaled
    compliment_original compliment_scaled : BoundingBox) :
    BoundingBox × BoundingBox :=
  let trimmed_foundation : BoundingBox :=
    ⟨max foundation_original.left compliment_scaled.left,
     max foundation_original.bottom compliment_scaled.bottom,
     min foundation_original.right compliment_scaled.right,
     min foundation_original.top compliment_scaled.top⟩
  let trimmed_compliment : BoundingBox :=
    ⟨max compliment_original.left foundation_scaled.left,
     max compliment_original.bottom foundation_scaled.bottom,
     min compliment_original.right foundation_scaled.right,
     min compliment_original.top foundation_scaled.top⟩
  (trimmed_foundation, trimmed_compliment)

/-- One (row, col) result of `rasterio.transform.AffineTransformer.rowcol`:
apply the inverse transform and floor both fractional indices. -/
def rowcolOf (T : Affine) (x y : ℚ) : ℤ × ℤ :=
  let p := T.inv.apply x y
  (⌊p.2⌋, ⌊p.1⌋)

/-- A rasterio row/column window, as built by
`Window.from_slices(slice(r0, r1), slice(c0, c1))`. -/
structure Window where
  row_start : ℤ
  row_stop : ℤ
  col_start : ℤ
  col_stop : ℤ
  deriving DecidableEq, Repr

/-- The window computed at the end of `clip_data` for one dataset:
`transform.rowcol([left, right], [top, bottom])` followed by
`Window.from_slices(slice(*xs), slice(*ys))` (the first returned list holds
the two rows, the second the two columns). -/
def windowFromBounds (T : Affine) (bb : BoundingBox) : Window :=
  let rc1 := rowcolOf T bb.left bb.top
  let rc2 := rowcolOf T bb.right bb.bottom
  ⟨rc1.1, rc2.1, rc1.2, rc2.2⟩

/-- The raster state of one dataset as `clip_data` sees it: the `dsm` array
shape (rows, cols) and the affine transform. -/
structure ClipDataset where
  shape : ℕ × ℕ
  transform : Affine
  deriving DecidableEq, Repr

/-- Effect of `DSM._create_dsm(resample=True)` through a window on the shape
and transform, in the setting exercised here: resample factor 1 (native
resolution equal to the pipeline resolution), units factor 1 and a projected
CRS.  The raster is re-read through the window (rasterio reads the
intersection of the window with the raster extent) and the transform becomes
`data.window_transform(window)`, i.e. the transform composed with the
translation by the window offsets. -/
def applyWindow (d : ClipDataset) (w : Window) : ClipDataset where
  shape := (((min w.row_stop (d.shape.1 : ℤ)) - max w.row_start 0).toNat,
            ((min w.col_stop (d.shape.2 : ℤ)) - max w.col_start 0).toNat)
  transform := d.transform.mul (Affine.translationBy w.col_start w.row_start)

/-- Embedding of `clip_data` on two datasets with defined and equal CRSes and
`TIGHT_SEARCH` enabled, with `oversize_scale = 1.5`: compute the original and
adjusted scaled bounding boxes, reject when the scaled boxes are disjoint,
clamp via `compute_clipped_bounds`, convert the clipped boxes to row/column
windows, and re-create each DSM through its window.  Returns the two windows
and the two updated datasets. -/
def clip_data (fnd_obj aoi_obj : ClipDataset) :
    Except String (Window × Window × ClipDataset × ClipDataset) :=
  let foundation_original := clipBoundingBox fnd_obj.transform 1 fnd_obj.shape
  let compliment_original := clipBoundingBox aoi_obj.transform 1 aoi_obj.shape
  let foundation_scaled :=
    adjustScaledBox foundation_original
      (clipBoundingBox fnd_obj.transform (3 / 2) fnd_obj.shape)
  let compliment_scaled :=
    adjustScaledBox compliment_original
      (clipBoundingBox aoi_obj.transform (3 / 2) aoi_obj.shape)
  if disjointBounds foundation_scaled compliment_scaled then
    Except.error "Bounding boxes for foundation and compliment are disjoint"
  else
    let clipped := compute_clipped_bounds foundation_original foundation_scaled
      compliment_original compliment_scaled
    let wf := windowFromBounds fnd_obj.transform clipped.1
    let wa := windowFromBounds aoi_obj.transform clipped.2
    Except.ok (wf, wa, applyWindow fnd_obj wf, applyWindow aoi_obj wa)

/-- The bounding box the claim describes: the image of the raster extent with
corners `(0, 0)` and `(width, height)` given in (column, row) order to the
transform.  Stated from the claim's words for comparison with
`clipBoundingBox`. -/
def claimedOriginalBox (T : Affine) (shape : ℕ × ℕ) : BoundingBox :=
  let lt := T.apply 0 0
  let rb := T.apply (shape.2 : ℚ) (shape.1 : ℚ)
  ⟨lt.1, rb.2, rb.1, lt.2⟩

/-- A box inflated symmetrically around its center to `factor` times its
size on each axis, as the claim describes the inflated bounding box. -/
def inflateSymmetric (bb : BoundingBox) (factor : ℚ) : BoundingBox :=
  let ex := (factor - 1) / 2 * (bb.right - bb.left)
  let ey := (factor - 1) / 2 * (bb.top - bb.bottom)
  ⟨bb.left - ex, bb.bottom - ey, bb.right + ex, bb.top + ey⟩

/-- C6 counterexample: for a non-square 2x3 raster with the north-up unit
transform, the box `clip_data` computes differs from the claimed image of the
corner `(width, height)`, and the inflated box it computes is not the claimed
1.5-times symmetric inflation of either box. -/
theorem clip_data_bounding_box_counterexample :
    clipBoundingBox ⟨1, 0, 0, 0, -1, 0⟩ 1 (2, 3) ≠
      claimedOriginalBox ⟨1, 0, 0, 0, -1, 0⟩ (2, 3) ∧
    adjustScaledBox (clipBoundingBox ⟨1, 0, 0, 0, -1, 0⟩ 1 (2, 3))
        (clipBoundingBox ⟨1, 0, 0, 0, -1, 0⟩ (3 / 2) (2, 3)) ≠
      inflateSymmetric (claimedOriginalBox ⟨1, 0, 0, 0, -1, 0⟩ (2, 3)) (3 / 2) ∧
    adjustScaledBox (clipBoundingBox ⟨1, 0, 0, 0, -1, 0⟩ 1 (2, 3))
        (clipBoundingBox ⟨1, 0, 0, 0, -1, 0⟩ (3 / 2) (2, 3)) ≠
      inflateSymmetric (clipBoundingBox ⟨1, 0, 0, 0, -1, 0⟩ 1 (2, 3)) (3 / 2) :=
  of_decide_eq_true (by with_unfolding_all rfl)

/-- C6 amended: for every dataset with a conformal north-up transform
(`b = d = 0`, `a > 0`, `e < 0`) and shape `(rows, cols)`, the original
bounding box `clip_data` uses is the image of corners `(0, 0)` and
`(rows, cols)` fed to the transform in (column, row) order — i.e. the claimed
box for the transposed shape — and the inflated box is the original box
expanded symmetrically by half of its extent on each side, giving a box twice
the original size that shares its center. -/
theorem clip_data_bounding_box_amended (T : Affine) (h w : ℕ)
    (hb : T.b = 0) (hd : T.d = 0) (ha : 0 < T.a) (he : T.e < 0) :
    clipBoundingBox T 1 (h, w) = claimedOriginalBox T (w, h) ∧
    adjustScaledBox (clipBoundingBox T 1 (h, w))
        (clipBoundingBox T (3 / 2) (h, w)) =
      inflateSymmetric (clipBoundingBox T 1 (h, w)) 2 := by
  have hah : (0 : ℚ) ≤ T.a * h / 2 := by positivity
  have hew : T.e * w / 2 ≤ 0 := by
    have h0 : (0 : ℚ) ≤ (w : ℚ) := Nat.cast_nonneg w
    have := mul_nonpos_of_nonpos_of_nonneg he.le h0
    linarith
  have h1 : clipBoundingBox T 1 (h, w) =
      ⟨T.c, T.e * w + T.f, T.a * h + T.c, T.f⟩ := by
    simp only [clipBoundingBox, Affine.mul, Affine.scaleBoth, Affine.apply, hb,
      hd, BoundingBox.mk.injEq]
    refine ⟨by ring, by ring, by ring, by ring⟩
  have h2 : clipBoundingBox T (3 / 2) (h, w) =
      ⟨T.c, 3 / 2 * (T.e * w) + T.f, 3 / 2 * (T.a * h) + T.c, T.f⟩ := by
    simp only [clipBoundingBox, Affine.mul, Affine.scaleBoth, Affine.apply, hb,
      hd, BoundingBox.mk.injEq]
    refine ⟨by ring, by ring, by ring, by ring⟩
  refine ⟨?_, ?_⟩
  · rw [h1]
    simp only [claimedOriginalBox, Affine.apply, hb, hd, BoundingBox.mk.injEq]
    refine ⟨by ring, by ring, by ring, by ring⟩
  · rw [h1, h2]
    simp only [adjustScaledBox, inflateSymmetric, BoundingBox.mk.injEq]
    have hx : |3 / 2 * (T.a * (h : ℚ)) + T.c - (T.a * h + T.c)| = T.a * h / 2 := by
      rw [show 3 / 2 * (T.a * (h : ℚ)) + T.c - (T.a * h + T.c) = T.a * h / 2 by
        ring]
      exact abs_of_nonneg hah
    have hy : |3 / 2 * (T.e * (w : ℚ)) + T.f - (T.e * w + T.f)| =
        -(T.e * w / 2) := by
      rw [show 3 / 2 * (T.e * (w : ℚ)) + T.f - (T.e * w + T.f) = T.e * w / 2 by
        ring]
      exact abs_of_nonpos hew
    rw [hx, hy]
    refine ⟨by ring, by ring, by ring, by ring⟩

/-- Witness for the amended C6 at a concrete non-square input. -/
theorem clip_data_bounding_box_amended_witness :
    (⟨2, 0, 5, 0, -3, 7⟩ : Affine).b = 0 ∧ (⟨2, 0, 5, 0, -3, 7⟩ : Affine).d = 0 ∧
    (0 : ℚ) < (⟨2, 0, 5, 0, -3, 7⟩ : Affine).a ∧
    (⟨2, 0, 5, 0, -3, 7⟩ : Affine).e < 0 ∧
    (clipBoundingBox ⟨2, 0, 5, 0, -3, 7⟩ 1 (2, 3) =
      claimedOriginalBox ⟨2, 0, 5, 0, -3, 7⟩ (3, 2) ∧
    adjustScaledBox (clipBoundingBox ⟨2, 0, 5, 0, -3, 7⟩ 1 (2, 3))
        (clipBoundingBox ⟨2, 0, 5, 0, -3, 7⟩ (3 / 2) (2, 3)) =
      inflateSymmetric (clipBoundingBox ⟨2, 0, 5, 0, -3, 7⟩ 1 (2, 3)) 2) :=
  ⟨rfl, rfl, by norm_num, by norm_num,
   clip_data_bounding_box_amended ⟨2, 0, 5, 0, -3, 7⟩ 2 3 rfl rfl
     (by norm_num) (by norm_num)⟩

/-- C9: `clip_data` is not idempotent.  On a 10x10 foundation at the origin
and a 10x10 AOI offset by 8 world units (unit pixels, north-up), the first
run computes the foundation window rows [0, 10), cols [3, 10) and windows
both datasets to shape (10, 7); the second run on the windowed datasets
computes the foundation window rows [0, 7), cols [0, 10), which differs both
from the first run's window and from the full extent of the windowed
foundation raster. -/
theorem clip_data_not_idempotent :
    clip_data ⟨(10, 10), ⟨1, 0, 0, 0, -1, 0⟩⟩ ⟨(10, 10), ⟨1, 0, 8, 0, -1, 0⟩⟩ =
      Except.ok (⟨0, 10, 3, 10⟩, ⟨0, 10, 0, 7⟩,
        ⟨(10, 7), ⟨1, 0, 3, 0, -1, 0⟩⟩, ⟨(10, 7), ⟨1, 0, 8, 0, -1, 0⟩⟩) ∧
    clip_data ⟨(10, 7), ⟨1, 0, 3, 0, -1, 0⟩⟩ ⟨(10, 7), ⟨1, 0, 8, 0, -1, 0⟩⟩ =
      Except.ok (⟨0, 7, 0, 10⟩, ⟨0, 7, 0, 10⟩,
        ⟨(7, 7), ⟨1, 0, 3, 0, -1, 0⟩⟩, ⟨(7, 7), ⟨1, 0, 8, 0, -1, 0⟩⟩) ∧
    ((⟨0, 7, 0, 10⟩ : Window) ≠ ⟨0, 10, 3, 10⟩ ∧
     (⟨0, 7, 0, 10⟩ : Window) ≠ ⟨0, 10, 0, 7⟩) := by
  refine ⟨?_, ?_, by decide, by decide⟩ <;> with_unfolding_all rfl

/-! ## C7 / C10: instantiate and ApplyRegistration.apply dispatch -/

/-- Modelled from the spec: `codem.lib.resources.dsm_filetypes`.  The module
`codem/lib/resources.py` is not among the sources under verification; the
spec lists the recognized raster extensions as `.tif`, `.tiff`. -/
def dsm_filetypes : List String := [".tif", ".tiff"]

/-- Modelled from the spec: `codem.lib.resources.mesh_filetypes`.  The spec
lists the recognized mesh extensions as `.obj`, `.ply`, `.stl`, `.gltf`,
`.glb`. -/
def mesh_filetypes : List String := [".obj", ".ply", ".stl", ".gltf", ".glb"]

/-- Modelled from the spec: `codem.lib.resources.pcloud_filetypes`.  The spec
lists the recognized point-cloud extensions as `.las`, `.laz`, `.bpf`,
`.ply`, plus `.json` pipeline descriptors. -/
def pcloud_filetypes : List String := [".las", ".laz", ".bpf", ".ply", ".json"]

/-- The three dataset kinds that `instantiate` can construct. -/
inductive GeoKind where
  | dsm
  | mesh
  | pcloud
  deriving DecidableEq, Repr

/-- Embedding of `instantiate`, applied to `os.path.splitext(file_path)[-1]`
(the extension exactly as spelled in the path; the code performs no case
folding).  The three membership tests run in order with early returns, and a
miss on all three raises `NotImplementedError`. -/
def instantiate (ext : String) : Except String GeoKind :=
  if ext ∈ dsm_filetypes then Except.ok GeoKind.dsm
  else if ext ∈ mesh_filetypes then Except.ok GeoKind.mesh
  else if ext ∈ pcloud_filetypes then Except.ok GeoKind.pcloud
  else Except.error "File type not currently supported."

/-- C7 counterexample: the extension `.TIF` is in the raster set when
compared case-insensitively, yet `instantiate` raises the
unsupported-format error for it because the membership test is exact. -/
theorem instantiate_case_counterexample :
    ".TIF".toLower ∈ dsm_filetypes ∧
    instantiate ".TIF" = Except.error "File type not currently supported." :=
  ⟨of_decide_eq_true (by with_unfolding_all rfl), rfl⟩

/-- C7 amended: `instantiate` compares extensions exactly (case-sensitively):
an extension in the raster set yields a DSM, one in the mesh set (and not the
raster set) yields a Mesh, one in the point-cloud set (and in neither earlier
set) yields a PointCloud, and one in no set raises the unsupported-format
error. -/
theorem instantiate_amended (ext : String) :
    (ext ∈ dsm_filetypes → instantiate ext = Except.ok GeoKind.dsm) ∧
    (ext ∉ dsm_filetypes → ext ∈ mesh_filetypes →
      instantiate ext = Except.ok GeoKind.mesh) ∧
    (ext ∉ dsm_filetypes → ext ∉ mesh_filetypes → ext ∈ pcloud_filetypes →
      instantiate ext = Except.ok GeoKind.pcloud) ∧
    (ext ∉ dsm_filetypes → ext ∉ mesh_filetypes → ext ∉ pcloud_filetypes →
      instantiate ext = Except.error "File type not currently supported.") := by
  refine ⟨fun h1 => ?_, fun h1 h2 => ?_, fun h1 h2 h3 => ?_,
    fun h1 h2 h3 => ?_⟩
  · simp [instantiate, h1]
  · simp [instantiate, h1, h2]
  · simp [instantiate, h1, h2, h3]
  · simp [instantiate, h1, h2, h3]

/-- Witness for the amended C7 at concrete extensions: `.tif` maps to a DSM,
`.las` to a PointCloud, and `.xyz` to the unsupported-format error. -/
theorem instantiate_amended_witness :
    instantiate ".tif" = Except.ok GeoKind.dsm ∧
    (".las" ∉ dsm_filetypes ∧ ".las" ∉ mesh_filetypes ∧
      ".las" ∈ pcloud_filetypes ∧
      instantiate ".las" = Except.ok GeoKind.pcloud) ∧
    (".xyz" ∉ dsm_filetypes ∧ ".xyz" ∉ mesh_filetypes ∧
      ".xyz" ∉ pcloud_filetypes ∧
      instantiate ".xyz" = Except.error "File type not currently supported.") :=
  ⟨(instantiate_amended ".tif").1 (by decide),
   ⟨by decide, by decide, by decide,
    (instantiate_amended ".las").2.2.1 (by decide) (by decide) (by decide)⟩,
   ⟨by decide, by decide, by decide,
    (instantiate_amended ".xyz").2.2.2 (by decide) (by decide) (by decide)⟩⟩

/-- The three application routines that `ApplyRegistration.apply` can call. -/
inductive ApplyAction where
  | applyDSM
  | applyMesh
  | applyPointcloud
  deriving DecidableEq, Repr

/-- Embedding of the dispatch in `ApplyRegistration.apply`: three independent
(non-exclusive) membership tests on the AOI file's extension, each running
its application routine; every routine writes to the same `self.out_name`
path, recorded alongside each action. -/
def apply_dispatch (ext out_name : String) : List (ApplyAction × String) :=
  (if ext ∈ dsm_filetypes then [(ApplyAction.applyDSM, out_name)] else []) ++
  (if ext ∈ mesh_filetypes then [(ApplyAction.applyMesh, out_name)] else []) ++
  (if ext ∈ pcloud_filetypes then [(ApplyAction.applyPointcloud, out_name)]
   else [])

/-- C10: for every extension in both the mesh and the point-cloud sets (such
as `.ply`, which belongs to both), `apply` runs both the mesh application and
the point-cloud application, each against the same output path, while
`instantiate` — which tests the sets in the order raster, mesh, point-cloud
with early returns — constructs a Mesh for such a file. -/
theorem apply_dispatch_overlap (ext out_name : String)
    (hm : ext ∈ mesh_filetypes) (hp : ext ∈ pcloud_filetypes) :
    ((ApplyAction.applyMesh, out_name) ∈ apply_dispatch ext out_name ∧
     (ApplyAction.applyPointcloud, out_name) ∈ apply_dispatch ext out_name) ∧
    (ext ∉ dsm_filetypes → instantiate ext = Except.ok GeoKind.mesh) ∧
    ".ply" ∈ mesh_filetypes ∧ ".ply" ∈ pcloud_filetypes := by
  refine ⟨⟨?_, ?_⟩, fun hd => ?_, by decide, by decide⟩
  · simp [apply_dispatch, hm]
  · simp [apply_dispatch, hp]
  · simp [instantiate, hd, hm]

/-- Witness for C10 at the concrete overlapping extension `.ply`. -/
theorem apply_dispatch_overlap_witness :
    ".ply" ∈ mesh_filetypes ∧ ".ply" ∈ pcloud_filetypes ∧
    (((ApplyAction.applyMesh, "out.ply") ∈ apply_dispatch ".ply" "out.ply" ∧
      (ApplyAction.applyPointcloud, "out.ply") ∈
        apply_dispatch ".ply" "out.ply") ∧
     (".ply" ∉ dsm_filetypes → instantiate ".ply" = Except.ok GeoKind.mesh) ∧
     ".ply" ∈ mesh_filetypes ∧ ".ply" ∈ pcloud_filetypes) :=
  ⟨by decide, by decide,
   apply_dispatch_overlap ".ply" "out.ply" (by decide) (by decide)⟩

/-! ## C8: temporary rasters in PointCloud._create_dsm and Mesh._create_dsm -/

/-- Exit state of one `_create_dsm` call with respect to its temporary
raster: whether the file still exists when control leaves the method, and
whether the method returned normally. -/
structure TempFileTrace where
  tmp_exists : Bool
  succeeded : Bool
  deriving DecidableEq, Repr

/-- Embedding of the temporary-raster lifecycle of `PointCloud._create_dsm`:
`tempfile.mkstemp` creates the file, `pipeline.execute()` may raise,
`self._read_dsm(tmp_file)` may raise, and only after both succeed do
`os.close` and `os.remove` run.  The body has no try/finally, so an
exception propagates before the removal.  `exec_ok` and `read_ok` say
whether the two fallible steps succeed. -/
def pointcloud_create_dsm_trace (exec_ok read_ok : Bool) : TempFileTrace :=
  if exec_ok = false then ⟨true, false⟩
  else if read_ok = false then ⟨true, false⟩
  else ⟨false, true⟩

/-- Embedding of the temporary-raster lifecycle of `Mesh._create_dsm`: the
PDAL pipeline writes `temp_dsm.tif`, `p.execute()` may raise,
`self._read_dsm("temp_dsm.tif")` may raise, and `os.remove("temp_dsm.tif")`
runs only after both succeed; again there is no try/finally. -/
def mesh_create_dsm_trace (exec_ok read_ok : Bool) : TempFileTrace :=
  if exec_ok = false then ⟨true, false⟩
  else if read_ok = false then ⟨true, false⟩
  else ⟨false, true⟩

/-- C8 counterexample: on the exit paths where the PDAL pipeline execution or
the subsequent DSM read raises, both `_create_dsm` variants leave the
temporary raster in place, contradicting deletion on all exit paths. -/
theorem create_dsm_tempfile_counterexample :
    (pointcloud_create_dsm_trace false true).tmp_exists = true ∧
    (pointcloud_create_dsm_trace true false).tmp_exists = true ∧
    (mesh_create_dsm_trace false true).tmp_exists = true ∧
    (mesh_create_dsm_trace true false).tmp_exists = true := by
  decide

/-- C8 amended: each `_create_dsm` variant deletes its temporary raster
exactly on the successful exit path: the file is gone at exit if and only if
both the pipeline execution and the DSM read succeeded; on the error exit
paths it persists. -/
theorem create_dsm_tempfile_amended (exec_ok read_ok : Bool) :
    ((pointcloud_create_dsm_trace exec_ok read_ok).tmp_exists = false ↔
      exec_ok = true ∧ read_ok = true) ∧
    ((pointcloud_create_dsm_trace exec_ok read_ok).succeeded = true ↔
      exec_ok = true ∧ read_ok = true) ∧
    ((mesh_create_dsm_trace exec_ok read_ok).tmp_exists = false ↔
      exec_ok = true ∧ read_ok = true) ∧
    ((mesh_create_dsm_trace exec_ok read_ok).succeeded = true ↔
      exec_ok = true ∧ read_ok = true) := by
  cases exec_ok <;> cases read_ok <;> decide

/-! ## C5: ApplyRegistration._interpolate_residuals -/

/-- Application of a 4x4 matrix to a 3D point extended with a homogeneous 1,
keeping the first three components: models
`(M @ np.hstack((p, 1)).T).T[:, 0:3]`. -/
def mat4ApplyHom (M : Mat4) (p : ℚ × ℚ × ℚ) : ℚ × ℚ × ℚ :=
  (M 0 0 * p.1 + M 0 1 * p.2.1 + M 0 2 * p.2.2 + M 0 3 * 1,
   M 1 0 * p.1 + M 1 1 * p.2.1 + M 1 2 * p.2.2 + M 1 3 * 1,
   M 2 0 * p.1 + M 2 1 * p.2.1 + M 2 2 * p.2.2 + M 2 3 * 1)

/-- Membership of a 2D point in the convex hull of a finite point list: the
point is a convex combination of the listed points. -/
def inConvexHull (pts : List (ℚ × ℚ)) (q : ℚ × ℚ) : Prop :=
  ∃ wts : List ℚ, wts.length = pts.length ∧ (∀ t ∈ wts, 0 ≤ t) ∧
    wts.sum = 1 ∧
    ((wts.zip pts).map fun tp => tp.1 * tp.2.1).sum = q.1 ∧
    ((wts.zip pts).map fun tp => tp.1 * tp.2.2).sum = q.2

/-- Embedding of `ApplyRegistration._interpolate_residuals` at one query
point (the numpy version maps the same computation over arrays of query
coordinates).  External numerics are abstract parameters: `interp pts vals`
models `LinearTriInterpolator(Triangulation(pts), vals)` — returning `none`
where matplotlib returns a masked NaN — and `sqrtQ` models `np.sqrt`.  The
method scales both residual origins and vectors by the `meters_to_fnd`
matrix (`np.eye(4) * (1 / fnd_units_factor)` with unit last diagonal entry),
forms the five component value lists, interpolates each over the scaled
origin (x, y) points, and replaces NaN results by `-9999.0`. -/
def interpolate_residuals
    (interp : List (ℚ × ℚ) → List ℚ → ℚ → ℚ → Option ℚ) (sqrtQ : ℚ → ℚ)
    (fnd_units_factor : ℚ) (residual_origins residual_vectors : List (ℚ × ℚ × ℚ))
    (x y : ℚ) : ℚ × ℚ × ℚ × ℚ × ℚ :=
  let meters_to_fnd := npEyeScaled (1 / fnd_units_factor)
  let fnd_res_origins := residual_origins.map (mat4ApplyHom meters_to_fnd)
  let fnd_res_vectors := residual_vectors.map (mat4ApplyHom meters_to_fnd)
  let x_res := fnd_res_vectors.map fun v => v.1
  let y_res := fnd_res_vectors.map fun v => v.2.1
  let z_res := fnd_res_vectors.map fun v => v.2.2
  let horiz_res := fnd_res_vectors.map fun v => sqrtQ (v.1 ^ 2 + v.2.1 ^ 2)
  let threeD_res := fnd_res_vectors.map fun v =>
    sqrtQ (v.1 ^ 2 + v.2.1 ^ 2 + v.2.2 ^ 2)
  let triPts := fnd_res_origins.map fun p => (p.1, p.2.1)
  ((interp triPts x_res x y).getD (-9999),
   (interp triPts y_res x y).getD (-9999),
   (interp triPts z_res x y).getD (-9999),
   (interp triPts horiz_res x y).getD (-9999),
   (interp triPts threeD_res x y).getD (-9999))

lemma mat4ApplyHom_npEyeScaled (s : ℚ) (p : ℚ × ℚ × ℚ) :
    mat4ApplyHom (npEyeScaled s) p = (s * p.1, s * p.2.1, s * p.2.2) := by
  show (s * p.1 + 0 * p.2.1 + 0 * p.2.2 + 0 * 1,
        0 * p.1 + s * p.2.1 + 0 * p.2.2 + 0 * 1,
        0 * p.1 + 0 * p.2.1 + s * p.2.2 + 0 * 1) = _
  norm_num

lemma scaled_origins_xy (f : ℚ) (origins : List (ℚ × ℚ × ℚ)) :
    ((origins.map (mat4ApplyHom (npEyeScaled (1 / f)))).map fun p =>
        (p.1, p.2.1)) =
      origins.map fun p => (p.1 / f, p.2.1 / f) := by
  rw [List.map_map]
  refine List.map_congr_left fun p _ => ?_
  simp only [Function.comp, mat4ApplyHom_npEyeScaled]
  exact Prod.ext (by ring) (by ring)

/-- C5: `_interpolate_residuals` scales both the residual origins and the
residual vectors by `1 / fnd_units_factor` (the `meters_to_fnd` matrix acts
on each point as plain division of its three coordinates by the foundation
units factor), and — given that the interpolator returns a masked value for
queries strictly outside the convex hull of its input points — every query
point outside the convex hull of the scaled origins receives exactly
`-9999.0` in all five returned components. -/
theorem interpolate_residuals_outside_hull
    (interp : List (ℚ × ℚ) → List ℚ → ℚ → ℚ → Option ℚ) (sqrtQ : ℚ → ℚ)
    (f : ℚ) (origins vectors : List (ℚ × ℚ × ℚ)) (x y : ℚ)
    (hInterp : ∀ pts vals qx qy, ¬inConvexHull pts (qx, qy) →
      interp pts vals qx qy = none)
    (hOut : ¬inConvexHull (origins.map fun p => (p.1 / f, p.2.1 / f)) (x, y)) :
    interpolate_residuals interp sqrtQ f origins vectors x y =
      (-9999, -9999, -9999, -9999, -9999) ∧
    origins.map (mat4ApplyHom (npEyeScaled (1 / f))) =
      origins.map (fun p => (p.1 / f, p.2.1 / f, p.2.2 / f)) ∧
    vectors.map (mat4ApplyHom (npEyeScaled (1 / f))) =
      vectors.map (fun p => (p.1 / f, p.2.1 / f, p.2.2 / f)) := by
  have hscale : ∀ l : List (ℚ × ℚ × ℚ),
      l.map (mat4ApplyHom (npEyeScaled (1 / f))) =
        l.map (fun p => (p.1 / f, p.2.1 / f, p.2.2 / f)) := by
    intro l
    refine List.map_congr_left fun p _ => ?_
    rw [mat4ApplyHom_npEyeScaled]
    refine Prod.ext (by ring) (Prod.ext (by ring) (by ring))
  refine ⟨?_, hscale origins, hscale vectors⟩
  have hnone : ∀ vals : List ℚ,
      interp ((origins.map (mat4ApplyHom (npEyeScaled (1 / f)))).map fun p =>
        (p.1, p.2.1)) vals x y = none := by
    intro vals
    rw [scaled_origins_xy]
    exact hInterp _ vals x y hOut
  simp only [interpolate_residuals]
  rw [hnone, hnone, hnone, hnone, hnone]
  rfl

/-- Witness for C5: a single residual origin at (2, 4, 6) with foundation
units factor 2 scales to the point (1, 2); the query (5, 5) lies outside the
convex hull of that single point, and with the everywhere-masked
interpolator all five components come back as -9999. -/
theorem interpolate_residuals_outside_hull_witness :
    (∀ pts vals qx qy, ¬inConvexHull pts (qx, qy) →
      (fun (_ : List (ℚ × ℚ)) (_ : List ℚ) (_ : ℚ) (_ : ℚ) =>
        (none : Option ℚ)) pts vals qx qy = none) ∧
    ¬inConvexHull ([((2 : ℚ), (4 : ℚ), (6 : ℚ))].map fun p =>
      (p.1 / 2, p.2.1 / 2)) (5, 5) ∧
    interpolate_residuals
      (fun _ _ _ _ => none) (fun _ => 0) 2
      [((2 : ℚ), (4 : ℚ), (6 : ℚ))] [((2 : ℚ), (0 : ℚ), (0 : ℚ))] 5 5 =
      (-9999, -9999, -9999, -9999, -9999) := by
  have hOut : ¬inConvexHull ([((2 : ℚ), (4 : ℚ), (6 : ℚ))].map fun p =>
      (p.1 / 2, p.2.1 / 2)) (5, 5) := by
    rintro ⟨wts, hlen, _, hsum, hx, -⟩
    simp only [List.map_cons, List.map_nil] at hlen hx
    obtain ⟨t, rfl⟩ := List.length_eq_one.mp hlen
    simp only [List.sum_cons, List.sum_nil, add_zero] at hsum
    simp only [List.zip_cons_cons, List.zip_nil_right, List.map_cons,
      List.map_nil, List.sum_cons, List.sum_nil, add_zero] at hx
    rw [hsum] at hx
    norm_num at hx
  exact ⟨fun _ _ _ _ _ => rfl, hOut,
    (interpolate_residuals_outside_hull (fun _ _ _ _ => none) (fun _ => 0) 2
      [((2 : ℚ), (4 : ℚ), (6 : ℚ))] [((2 : ℚ), (0 : ℚ), (0 : ℚ))] 5 5
      (fun _ _ _ _ _ => rfl) hOut).1⟩

/-! ## C4: GeoData._normalize -/

/-- Row-major flattening of an `h` by `w` grid into a value list, the order
in which `np.percentile` sees the array's elements (their order is in fact
irrelevant to a percentile). -/
def gridToList (h w : ℕ) (g : ℕ → ℕ → ℚ) : List ℚ :=
  (flatIndices h w).map fun rc => g rc.1 rc.2

/-- Embedding of `np.percentile(a, p)` with the default linear interpolation:
sort the values, take the fractional position `(n - 1) * p / 100`, and
linearly interpolate between the two neighbouring order statistics. -/
def npPercentile (l : List ℚ) (p : ℚ) : ℚ :=
  let s := List.insertionSort (· ≤ ·) l
  let n := s.length
  let pos : ℚ := ((n : ℚ) - 1) * p / 100
  let i : ℕ := (⌊pos⌋).toNat
  let lo := s.getD i 0
  let hi := s.getD (min (i + 1) (n - 1)) 0
  lo + (pos - (i : ℚ)) * (hi - lo)

/-- The bandpass raster of `GeoData._normalize`: the weak Gaussian blur minus
the strong Gaussian blur, with sigmas `weak_size / scale` and
`strong_size / scale`.  `blur` abstracts `cv2.GaussianBlur` with kernel size
`(0, 0)`, and `scale` stands for `np.sqrt(transform[0]**2 + transform[1]**2)`
(for the conformal transforms the pipeline accepts, `transform[1] = 0` and
this is the pixel size `|a|`). -/
def bandpassOf (blur : ℚ → (ℕ → ℕ → ℚ) → (ℕ → ℕ → ℚ))
    (weak_size strong_size scale : ℚ) (infilled : ℕ → ℕ → ℚ) : ℕ → ℕ → ℚ :=
  fun r c => blur (weak_size / scale) infilled r c -
    blur (strong_size / scale) infilled r c

/-- Embedding of `GeoData._normalize`: clip the bandpass to its 1st and 99th
percentiles, remap linearly to [0, 1], scale by 255 and cast to uint8.  The
cast truncates toward zero, which on the nonnegative values produced here is
the floor; when the two percentiles coincide, numpy's 0/0 produces NaN
(cast to 0 on mainstream platforms) and the model's `x / 0 = 0` convention
likewise yields 0. -/
def normalize (blur : ℚ → (ℕ → ℕ → ℚ) → (ℕ → ℕ → ℚ))
    (weak_size strong_size scale : ℚ) (h w : ℕ)
    (infilled : ℕ → ℕ → ℚ) : ℕ → ℕ → ℤ :=
  let bandpassed := bandpassOf blur weak_size strong_size scale infilled
  let low := npPercentile (gridToList h w bandpassed) 1
  let high := npPercentile (gridToList h w bandpassed) 99
  fun r c =>
    let clipped := min (max (bandpassed r c) low) high
    let normalized := (clipped - low) / (high - low)
    ⌊255 * normalized⌋

lemma sorted_getD_mono {s : List ℚ} (hs : List.Sorted (· ≤ ·) s) {i j : ℕ}
    (hij : i ≤ j) (hj : j < s.length) : s.getD i 0 ≤ s.getD j 0 := by
  have hi : i < s.length := lt_of_le_of_lt hij hj
  rw [List.getD_eq_get s 0 hi, List.getD_eq_get s 0 hj]
  exact hs.rel_get_of_le hij

lemma getD_mem {s : List ℚ} {i : ℕ} (hi : i < s.length) : s.getD i 0 ∈ s := by
  rw [List.getD_eq_get s 0 hi]
  exact s.get_mem i hi

/-- The numpy percentile of a nonempty list, for `0 ≤ p ≤ 100`, is bracketed
by two elements of the list. -/
lemma npPercentile_bounds (l : List ℚ) (hne : l ≠ []) (p : ℚ)
    (hp0 : 0 ≤ p) (hp1 : p ≤ 100) :
    (∃ x ∈ l, x ≤ npPercentile l p) ∧ (∃ x ∈ l, npPercentile l p ≤ x) := by
  set s := List.insertionSort (· ≤ ·) l with hs_def
  have hsorted : List.Sorted (· ≤ ·) s := List.sorted_insertionSort _ l
  have hperm : s.Perm l := List.perm_insertionSort _ l
  have hlen : s.length = l.length := hperm.length_eq
  have hn0 : 0 < s.length := by
    rw [hlen]
    exact List.length_pos.mpr hne
  set n := s.length with hn_def
  set pos : ℚ := ((n : ℚ) - 1) * p / 100 with hpos_def
  have hn1 : (1 : ℚ) ≤ (n : ℚ) := by exact_mod_cast hn0
  have hpos0 : 0 ≤ pos := by
    apply div_nonneg _ (by norm_num)
    exact mul_nonneg (by linarith) hp0
  have hposle : pos ≤ (n : ℚ) - 1 := by
    rw [hpos_def, div_le_iff (by norm_num : (0 : ℚ) < 100)]
    nlinarith
  set i : ℕ := (⌊pos⌋).toNat with hi_def
  have hfloor0 : 0 ≤ ⌊pos⌋ := Int.floor_nonneg.mpr hpos0
  have hicast : (i : ℚ) = (⌊pos⌋ : ℚ) := by
    rw [hi_def]
    exact_mod_cast congrArg (fun z : ℤ => (z : ℚ)) (Int.toNat_of_nonneg hfloor0)
  have hile : (i : ℚ) ≤ pos := by
    rw [hicast]
    exact Int.floor_le pos
  have hiub : i ≤ n - 1 := by
    rw [hi_def, Int.toNat_le]
    have : (⌊pos⌋ : ℤ) ≤ ⌊(n : ℚ) - 1⌋ := Int.floor_le_floor hposle
    have hfl : ⌊(n : ℚ) - 1⌋ = (n : ℤ) - 1 := by
      rw [show ((n : ℚ) - 1) = (((n : ℤ) - 1 : ℤ) : ℚ) by push_cast; ring]
      exact Int.floor_intCast _
    omega
  have hin : i < n := by omega
  set j : ℕ := min (i + 1) (n - 1) with hj_def
  have hij : i ≤ j := by omega
  have hjn : j < n := by omega
  have hfrac1 : pos - (i : ℚ) ≤ 1 := by
    have := Int.lt_floor_add_one pos
    rw [← hicast] at this
    linarith
  have hfrac0 : 0 ≤ pos - (i : ℚ) := by linarith
  have hlohi : s.getD i 0 ≤ s.getD j 0 := sorted_getD_mono hsorted hij hjn
  have hval_lo : s.getD i 0 ≤ npPercentile l p := by
    show s.getD i 0 ≤ s.getD i 0 + (pos - (i : ℚ)) * (s.getD j 0 - s.getD i 0)
    nlinarith
  have hval_hi : npPercentile l p ≤ s.getD j 0 := by
    show s.getD i 0 + (pos - (i : ℚ)) * (s.getD j 0 - s.getD i 0) ≤ s.getD j 0
    nlinarith
  have hfirst : s.getD 0 0 ≤ s.getD i 0 :=
    sorted_getD_mono hsorted (Nat.zero_le i) hin
  have hlast : s.getD j 0 ≤ s.getD (n - 1) 0 :=
    sorted_getD_mono hsorted (by omega) (by omega)
  refine ⟨⟨s.getD 0 0, hperm.mem_iff.mp (getD_mem hn0), by linarith⟩,
    ⟨s.getD (n - 1) 0, hperm.mem_iff.mp (getD_mem (by omega)), by linarith⟩⟩

lemma mem_gridToList {h w : ℕ} {g : ℕ → ℕ → ℚ} {x : ℚ} :
    x ∈ gridToList h w g ↔ ∃ r, r < h ∧ ∃ c, c < w ∧ g r c = x := by
  simp only [gridToList, flatIndices, List.mem_map, List.mem_flatMap,
    List.mem_range]
  constructor
  · rintro ⟨rc, ⟨r, hr, c, hc, rfl⟩, hval⟩
    exact ⟨r, hr, c, hc, hval⟩
  · rintro ⟨r, hr, c, hc, hval⟩
    exact ⟨(r, c), ⟨r, hr, c, hc, rfl⟩, hval⟩

lemma normalize_apply (blur : ℚ → (ℕ → ℕ → ℚ) → (ℕ → ℕ → ℚ))
    (weak_size strong_size scale : ℚ) (h w : ℕ) (infilled : ℕ → ℕ → ℚ)
    (r c : ℕ) :
    normalize blur weak_size strong_size scale h w infilled r c =
      ⌊255 * ((min (max (bandpassOf blur weak_size strong_size scale infilled r c)
          (npPercentile (gridToList h w
            (bandpassOf blur weak_size strong_size scale infilled)) 1))
          (npPercentile (gridToList h w
            (bandpassOf blur weak_size strong_size scale infilled)) 99) -
        npPercentile (gridToList h w
          (bandpassOf blur weak_size strong_size scale infilled)) 1) /
        (npPercentile (gridToList h w
          (bandpassOf blur weak_size strong_size scale infilled)) 99 -
         npPercentile (gridToList h w
          (bandpassOf blur weak_size strong_size scale infilled)) 1))⌋ := rfl

/-- A 1x101 test raster: -1 in the first column, 1 in the last, 0 elsewhere.
Used to exhibit a non-constant bandpass whose 1st and 99th percentiles
coincide. -/
def normalizeCexDSM : ℕ → ℕ → ℚ :=
  fun _ c => if c = 0 then -1 else if c = 100 then 1 else 0

/-- A concrete stand-in for `cv2.GaussianBlur`: the identity at sigma 1 and
the zero raster at any other sigma, so that with weak sigma 1 and strong
sigma 2 the bandpass equals the input raster. -/
def normalizeCexBlur : ℚ → (ℕ → ℕ → ℚ) → (ℕ → ℕ → ℚ) :=
  fun sigma g => if sigma = 1 then g else fun _ _ => 0

/-- A 1x2 test raster with distinct values, whose bandpass percentiles are
1/100 and 99/100. -/
def normalizeWitDSM : ℕ → ℕ → ℚ := fun _ c => if c = 0 then 0 else 1

set_option maxRecDepth 100000 in
/-- C4 counterexample: on the 1x101 raster above the bandpass is non-constant
(it takes the values -1 and 1), yet its 1st and 99th percentiles coincide, so
the cell at or above the 99th percentile is mapped to 0, not 255, and the
normalized image does not attain the range [0, 255]. -/
theorem normalize_range_counterexample :
    bandpassOf normalizeCexBlur 1 2 1 normalizeCexDSM 0 0 ≠
      bandpassOf normalizeCexBlur 1 2 1 normalizeCexDSM 0 100 ∧
    npPercentile (gridToList 1 101
        (bandpassOf normalizeCexBlur 1 2 1 normalizeCexDSM)) 99 ≤
      bandpassOf normalizeCexBlur 1 2 1 normalizeCexDSM 0 100 ∧
    normalize normalizeCexBlur 1 2 1 1 101 normalizeCexDSM 0 100 = 0 :=
  of_decide_eq_true (by with_unfolding_all rfl)

/-- C4 amended: whenever the 1st percentile of the bandpass is strictly below
its 99th percentile (non-constancy alone does not guarantee this),
`_normalize` produces an image attaining exactly the range [0, 255]: cells at
or below the 1st percentile map to 0, cells at or above the 99th percentile
map to 255, cells in between map to the floor of the linear remapping, every
value lies in [0, 255], and both endpoints are attained. -/
theorem normalize_range_amended (blur : ℚ → (ℕ → ℕ → ℚ) → (ℕ → ℕ → ℚ))
    (weak_size strong_size scale : ℚ) (h w : ℕ) (infilled : ℕ → ℕ → ℚ)
    (hh : 0 < h) (hw : 0 < w)
    (hlh : npPercentile (gridToList h w
        (bandpassOf blur weak_size strong_size scale infilled)) 1 <
      npPercentile (gridToList h w
        (bandpassOf blur weak_size strong_size scale infilled)) 99) :
    (∀ r c, bandpassOf blur weak_size strong_size scale infilled r c ≤
        npPercentile (gridToList h w
          (bandpassOf blur weak_size strong_size scale infilled)) 1 →
      normalize blur weak_size strong_size scale h w infilled r c = 0) ∧
    (∀ r c, npPercentile (gridToList h w
          (bandpassOf blur weak_size strong_size scale infilled)) 99 ≤
        bandpassOf blur weak_size strong_size scale infilled r c →
      normalize blur weak_size strong_size scale h w infilled r c = 255) ∧
    (∀ r c, npPercentile (gridToList h w
          (bandpassOf blur weak_size strong_size scale infilled)) 1 ≤
        bandpassOf blur weak_size strong_size scale infilled r c →
      bandpassOf blur weak_size strong_size scale infilled r c ≤
        npPercentile (gridToList h w
          (bandpassOf blur weak_size strong_size scale infilled)) 99 →
      normalize blur weak_size strong_size scale h w infilled r c =
        ⌊255 * ((bandpassOf blur weak_size strong_size scale infilled r c -
          npPercentile (gridToList h w
            (bandpassOf blur weak_size strong_size scale infilled)) 1) /
          (npPercentile (gridToList h w
            (bandpassOf blur weak_size strong_size scale infilled)) 99 -
           npPercentile (gridToList h w
            (bandpassOf blur weak_size strong_size scale infilled)) 1))⌋) ∧
    (∀ r c, 0 ≤ normalize blur weak_size strong_size scale h w infilled r c ∧
      normalize blur weak_size strong_size scale h w infilled r c ≤ 255) ∧
    (∃ r, r < h ∧ ∃ c, c < w ∧
      normalize blur weak_size strong_size scale h w infilled r c = 0) ∧
    (∃ r, r < h ∧ ∃ c, c < w ∧
      normalize blur weak_size strong_size scale h w infilled r c = 255) := by
  set band := bandpassOf blur weak_size strong_size scale infilled with hband
  set low := npPercentile (gridToList h w band) 1 with hlow
  set high := npPercentile (gridToList h w band) 99 with hhigh
  have hpos : 0 < high - low := by linarith
  have key0 : ∀ r c, band r c ≤ low →
      normalize blur weak_size strong_size scale h w infilled r c = 0 := by
    intro r c hle
    rw [normalize_apply, ← hband, ← hlow, ← hhigh, max_eq_right hle,
      min_eq_left hlh.le]
    norm_num
  have key255 : ∀ r c, high ≤ band r c →
      normalize blur weak_size strong_size scale h w infilled r c = 255 := by
    intro r c hge
    rw [normalize_apply, ← hband, ← hlow, ← hhigh,
      max_eq_left (le_trans hlh.le hge), min_eq_right hge,
      div_self (ne_of_gt hpos)]
    norm_num
  have keymid : ∀ r c, low ≤ band r c → band r c ≤ high →
      normalize blur weak_size strong_size scale h w infilled r c =
        ⌊255 * ((band r c - low) / (high - low))⌋ := by
    intro r c hlo hhi
    rw [normalize_apply, ← hband, ← hlow, ← hhigh, max_eq_left hlo,
      min_eq_left hhi]
  have keybounds : ∀ r c,
      0 ≤ normalize blur weak_size strong_size scale h w infilled r c ∧
      normalize blur weak_size strong_size scale h w infilled r c ≤ 255 := by
    intro r c
    rw [normalize_apply, ← hband, ← hlow, ← hhigh]
    have hclip_lo : low ≤ min (max (band r c) low) high :=
      le_min (le_max_right _ _) hlh.le
    have hclip_hi : min (max (band r c) low) high ≤ high := min_le_right _ _
    set q : ℚ := (min (max (band r c) low) high - low) / (high - low) with hq
    have hq0 : 0 ≤ q := div_nonneg (by linarith) hpos.le
    have hq1 : q ≤ 1 := by
      rw [hq, div_le_one hpos]
      linarith
    constructor
    · exact Int.floor_nonneg.mpr (by nlinarith)
    · calc ⌊255 * q⌋ ≤ ⌊(255 : ℚ)⌋ := Int.floor_le_floor (by nlinarith)
        _ = 255 := by norm_num
  have hne : gridToList h w band ≠ [] :=
    List.ne_nil_of_mem (mem_gridToList.mpr ⟨0, hh, 0, hw, rfl⟩)
  obtain ⟨x0, hx0mem, hx0le⟩ :=
    (npPercentile_bounds (gridToList h w band) hne 1 (by norm_num)
      (by norm_num)).1
  obtain ⟨x9, hx9mem, hx9ge⟩ :=
    (npPercentile_bounds (gridToList h w band) hne 99 (by norm_num)
      (by norm_num)).2
  obtain ⟨r0, hr0, c0, hc0, hval0⟩ := mem_gridToList.mp hx0mem
  obtain ⟨r9, hr9, c9, hc9, hval9⟩ := mem_gridToList.mp hx9mem
  refine ⟨key0, key255, keymid, keybounds,
    ⟨r0, hr0, c0, hc0, key0 r0 c0 (by rw [hval0]; exact hx0le)⟩,
    ⟨r9, hr9, c9, hc9, key255 r9 c9 (by rw [hval9]; exact hx9ge)⟩⟩

/-- Witness for the amended C4 on a concrete 1x2 raster whose bandpass
percentiles are 1/100 < 99/100: the hypothesis holds and the value 255 is
attained. -/
theorem normalize_range_amended_witness :
    npPercentile (gridToList 1 2
        (bandpassOf normalizeCexBlur 1 2 1 normalizeWitDSM)) 1 <
      npPercentile (gridToList 1 2
        (bandpassOf normalizeCexBlur 1 2 1 normalizeWitDSM)) 99 ∧
    (∃ r, r < 1 ∧ ∃ c, c < 2 ∧
      normalize normalizeCexBlur 1 2 1 1 2 normalizeWitDSM r c = 255) :=
  have hlh : npPercentile (gridToList 1 2
        (bandpassOf normalizeCexBlur 1 2 1 normalizeWitDSM)) 1 <
      npPercentile (gridToList 1 2
        (bandpassOf normalizeCexBlur 1 2 1 normalizeWitDSM)) 99 :=
    of_decide_eq_true (by with_unfolding_all rfl)
  ⟨hlh, (normalize_range_amended normalizeCexBlur 1 2 1 1 2 normalizeWitDSM
    (by norm_num) (by norm_num) hlh).2.2.2.2.2⟩

/-! ## C3: GeoData._infill and GeoData._get_nodata_mask

Raster cells are `Option ℚ`, with `none` playing the role of NaN.  The
external `rasterio.fill.fillnodata` is an abstract function parameter. -/

/-- Elementwise `==` of numpy's `np.array_equal` on two cells: NaN compares
unequal to everything, including itself. -/
def numpyEqCell (a b : Option ℚ) : Bool :=
  match a, b with
  | some x, some y => decide (x = y)
  | _, _ => false

/-- Embedding of `np.array_equal` on two `h` by `w` float rasters. -/
def npArrayEqual (h w : ℕ) (g1 g2 : ℕ → ℕ → Option ℚ) : Bool :=
  decide (∀ r, r < h → ∀ c, c < w → numpyEqCell (g1 r c) (g2 r c) = true)

/-- Embedding of `GeoData._get_nodata_mask`.  When a nodata value is set, the
passed array's NaN cells are overwritten with it in place (the first returned
component is the mutated array) and the mask marks cells different from
nodata; otherwise the mask marks non-NaN cells. -/
def getNodataMask (nodata : Option ℚ) (dsm : ℕ → ℕ → Option ℚ) :
    (ℕ → ℕ → Option ℚ) × (ℕ → ℕ → Bool) :=
  match nodata with
  | some nd =>
      let scrubbed := fun r c =>
        match dsm r c with
        | none => some nd
        | some v => some v
      (scrubbed, fun r c => decide (scrubbed r c ≠ some nd))
  | none => (dsm, fun r c => (dsm r c).isSome)

/-- Embedding of `np.sum` over a boolean `h` by `w` mask (the mask is cast to
uint8, so the sum counts the true cells, traversed in row-major order). -/
def countValid (h w : ℕ) (mask : ℕ → ℕ → Bool) : ℕ :=
  (flatIndices h w).countP fun rc => mask rc.1 rc.2

/-- Embedding of the `while np.sum(infill_mask) < infill_mask.size` loop of
`GeoData._infill`, with explicit fuel: each pass applies the fill to the
current raster under the current mask, then recomputes raster and mask via
`_get_nodata_mask`.  Returns `none` if the fuel runs out before the mask
is all-valid. -/
def infill_loop (fill : (ℕ → ℕ → Option ℚ) → (ℕ → ℕ → Bool) → (ℕ → ℕ → Option ℚ))
    (nodata : Option ℚ) (h w : ℕ) :
    ℕ → (ℕ → ℕ → Option ℚ) → (ℕ → ℕ → Bool) →
      Option ((ℕ → ℕ → Option ℚ) × (ℕ → ℕ → Bool))
  | 0, infilled, infill_mask =>
      if countValid h w infill_mask < h * w then none
      else some (infilled, infill_mask)
  | fuel + 1, infilled, infill_mask =>
      if countValid h w infill_mask < h * w then
        let filled := fill infilled infill_mask
        let next := getNodataMask nodata filled
        infill_loop fill nodata h w fuel next.1 next.2
      else some (infilled, infill_mask)

/-- Embedding of `GeoData._infill`.  The emptiness check compares the DSM
with `np.full(shape, nodata)` when a nodata value is set and with the
uninitialized `np.empty_like` array — modelled by the arbitrary `garbage`
parameter — otherwise.  On the non-error path the result pairs the infilled
raster produced by the loop with `nodata_mask`, the mask computed from the
pre-infill DSM (`none` signals fuel exhaustion of the modelled loop). -/
def infill (fill : (ℕ → ℕ → Option ℚ) → (ℕ → ℕ → Bool) → (ℕ → ℕ → Option ℚ))
    (fuel : ℕ) (nodata : Option ℚ) (h w : ℕ)
    (dsm garbage : ℕ → ℕ → Option ℚ) :
    Except String (Option ((ℕ → ℕ → Option ℚ) × (ℕ → ℕ → Bool))) :=
  let empty_array : ℕ → ℕ → Option ℚ :=
    match nodata with
    | some nd => fun _ _ => some nd
    | none => garbage
  if npArrayEqual h w dsm empty_array then
    Except.error "DSM array is empty."
  else
    let first := getNodataMask nodata dsm
    let mask := first.2
    Except.ok ((infill_loop fill nodata h w fuel first.1 mask).map
      fun res => (res.1, mask))

lemma length_flatIndices (h w : ℕ) : (flatIndices h w).length = h * w := by
  induction h with
  | zero => simp [flatIndices]
  | succ h ih =>
      have hsplit : flatIndices (h + 1) w =
          flatIndices h w ++ ((List.range w).map fun c => (h, c)) := by
        simp [flatIndices, List.range_succ]
      rw [hsplit, List.length_append, ih, List.length_map, List.length_range]
      ring

lemma mem_flatIndices {h w : ℕ} {rc : ℕ × ℕ} :
    rc ∈ flatIndices h w ↔ rc.1 < h ∧ rc.2 < w := by
  obtain ⟨r, c⟩ := rc
  simp only [flatIndices, List.mem_flatMap, List.mem_map, List.mem_range]
  constructor
  · rintro ⟨r', hr', c', hc', heq⟩
    obtain ⟨rfl, rfl⟩ := Prod.mk.injEq .. ▸ And.intro
      (congrArg Prod.fst heq).symm (congrArg Prod.snd heq).symm
    exact ⟨hr', hc'⟩
  · rintro ⟨hr, hc⟩
    exact ⟨r, hr, c, hc, rfl⟩

lemma countValid_le (h w : ℕ) (mask : ℕ → ℕ → Bool) :
    countValid h w mask ≤ h * w := by
  rw [countValid, ← length_flatIndices h w]
  exact List.countP_le_length _

lemma countValid_eq_size_iff (h w : ℕ) (mask : ℕ → ℕ → Bool) :
    countValid h w mask = h * w ↔
      ∀ r, r < h → ∀ c, c < w → mask r c = true := by
  rw [countValid, ← length_flatIndices h w, List.countP_eq_length]
  constructor
  · intro hall r hr c hc
    exact hall (r, c) (mem_flatIndices.mpr ⟨hr, hc⟩)
  · intro hall rc hmem
    obtain ⟨hr, hc⟩ := mem_flatIndices.mp hmem
    exact hall rc.1 hr rc.2 hc

lemma getNodataMask_idem (nd : ℚ) (g : ℕ → ℕ → Option ℚ) :
    (getNodataMask (some nd) (getNodataMask (some nd) g).1).2 =
      (getNodataMask (some nd) g).2 := by
  funext r c
  cases hg : g r c with
  | none => simp [getNodataMask, hg]
  | some v => simp [getNodataMask, hg]

lemma infill_loop_ok
    (fill : (ℕ → ℕ → Option ℚ) → (ℕ → ℕ → Bool) → (ℕ → ℕ → Option ℚ))
    (nd : ℚ) (h w : ℕ)
    (hprog : ∀ g m, countValid h w m < h * w →
      countValid h w m <
        countValid h w ((getNodataMask (some nd) (fill g m)).2)) :
    ∀ fuel (g : ℕ → ℕ → Option ℚ) (m : ℕ → ℕ → Bool),
      m = (getNodataMask (some nd) g).2 →
      h * w ≤ countValid h w m + fuel →
      ∃ gfin mfin,
        infill_loop fill (some nd) h w fuel g m = some (gfin, mfin) ∧
        mfin = (getNodataMask (some nd) gfin).2 ∧
        countValid h w mfin = h * w := by
  intro fuel
  induction fuel with
  | zero =>
      intro g m hinv hfuel
      refine ⟨g, m, ?_, hinv, ?_⟩
      · rw [infill_loop, if_neg (by omega)]
      · exact le_antisymm (countValid_le h w m) (by omega)
  | succ fuel ih =>
      intro g m hinv hfuel
      rw [infill_loop]
      by_cases hlt : countValid h w m < h * w
      · rw [if_pos hlt]
        have hnext :=
          ih (getNodataMask (some nd) (fill g m)).1
            (getNodataMask (some nd) (fill g m)).2
            (by rw [getNodataMask_idem]) (by have := hprog g m hlt; omega)
        exact hnext
      · rw [if_neg hlt]
        exact ⟨g, m, rfl, hinv,
          le_antisymm (countValid_le h w m) (by omega)⟩

/-- C3: with a nodata value `nd` set, `_infill` raises the empty-input error
exactly when every DSM cell equals `nd`; otherwise — for any fill routine
that strictly grows the set of valid cells on each pass, the property
`rasterio.fill.fillnodata` is used for — the loop terminates (some fuel
suffices) with an infilled raster whose recomputed nodata mask is all-valid,
and the stored `nodata_mask` equals the mask computed from the pre-infill
DSM. -/
theorem infill_spec
    (fill : (ℕ → ℕ → Option ℚ) → (ℕ → ℕ → Bool) → (ℕ → ℕ → Option ℚ))
    (nd : ℚ) (h w : ℕ) (dsm garbage : ℕ → ℕ → Option ℚ)
    (hprog : ∀ g m, countValid h w m < h * w →
      countValid h w m <
        countValid h w ((getNodataMask (some nd) (fill g m)).2)) :
    (∀ fuel, infill fill fuel (some nd) h w dsm garbage =
        Except.error "DSM array is empty." ↔
      ∀ r, r < h → ∀ c, c < w → dsm r c = some nd) ∧
    ((¬∀ r, r < h → ∀ c, c < w → dsm r c = some nd) →
      ∃ fuel gfin premask,
        infill fill fuel (some nd) h w dsm garbage =
          Except.ok (some (gfin, premask)) ∧
        premask = (getNodataMask (some nd) dsm).2 ∧
        (∀ r, r < h → ∀ c, c < w →
          (getNodataMask (some nd) gfin).2 r c = true)) := by
  have heqv : npArrayEqual h w dsm (fun _ _ => some nd) = true ↔
      ∀ r, r < h → ∀ c, c < w → dsm r c = some nd := by
    rw [npArrayEqual, decide_eq_true_iff]
    constructor
    · intro hall r hr c hc
      have := hall r hr c hc
      cases hd : dsm r c with
      | none => rw [hd] at this; simp [numpyEqCell] at this
      | some v =>
          rw [hd] at this
          simp only [numpyEqCell, decide_eq_true_iff] at this
          rw [this]
    · intro hall r hr c hc
      rw [hall r hr c hc]
      simp [numpyEqCell]
  constructor
  · intro fuel
    simp only [infill]
    by_cases hc : npArrayEqual h w dsm (fun _ _ => some nd) = true
    · rw [if_pos hc]
      exact ⟨fun _ => heqv.mp hc, fun _ => rfl⟩
    · rw [if_neg hc]
      constructor
      · intro habs
        exact Except.noConfusion habs
      · intro hall
        exact absurd (heqv.mpr hall) hc
  · intro hnotall
    have hc : ¬npArrayEqual h w dsm (fun _ _ => some nd) = true :=
      fun ht => hnotall (heqv.mp ht)
    obtain ⟨gfin, mfin, hloop, hinv, hcount⟩ :=
      infill_loop_ok fill nd h w hprog
        (h * w - countValid h w (getNodataMask (some nd) dsm).2)
        (getNodataMask (some nd) dsm).1 (getNodataMask (some nd) dsm).2
        (by rw [getNodataMask_idem])
        (by have := countValid_le h w (getNodataMask (some nd) dsm).2; omega)
    refine ⟨h * w - countValid h w (getNodataMask (some nd) dsm).2, gfin,
      (getNodataMask (some nd) dsm).2, ?_, rfl, ?_⟩
    · simp only [infill]
      rw [if_neg hc, hloop]
      rfl
    · intro r hr c hc'
      have := (countValid_eq_size_iff h w mfin).mp hcount r hr c hc'
      rw [hinv] at this
      exact this

/-- A concrete stand-in for `rasterio.fill.fillnodata`, used by the C3
witness: write 0 into every cell the mask marks invalid. -/
def infillWitFill : (ℕ → ℕ → Option ℚ) → (ℕ → ℕ → Bool) → (ℕ → ℕ → Option ℚ) :=
  fun g m r c => if m r c then g r c else some 0

lemma flatIndices_one_one : flatIndices 1 1 = [(0, 0)] := rfl

/-- Witness for C3 on a 1x1 all-NaN raster with nodata -9999 and a fill that
writes 0 into every invalid cell: the raster does not consist of nodata
values, so no error is raised, and the loop terminates with an all-valid
recomputed mask while `nodata_mask` records the original hole. -/
theorem infill_spec_witness :
    (∀ (g : ℕ → ℕ → Option ℚ) (m : ℕ → ℕ → Bool), countValid 1 1 m < 1 * 1 →
      countValid 1 1 m <
        countValid 1 1 ((getNodataMask (some (-9999)) (infillWitFill g m)).2)) ∧
    (¬∀ r, r < 1 → ∀ c, c < 1 →
      (fun _ _ => (none : Option ℚ)) r c = some (-9999)) ∧
    (∃ fuel gfin premask,
      infill infillWitFill fuel (some (-9999)) 1 1 (fun _ _ => none)
          (fun _ _ => some 0) =
        Except.ok (some (gfin, premask)) ∧
      premask = (getNodataMask (some (-9999)) (fun _ _ => none)).2 ∧
      (∀ r, r < 1 → ∀ c, c < 1 →
        (getNodataMask (some (-9999)) gfin).2 r c = true)) := by
  have hprog : ∀ (g : ℕ → ℕ → Option ℚ) (m : ℕ → ℕ → Bool),
      countValid 1 1 m < 1 * 1 →
      countValid 1 1 m <
        countValid 1 1 ((getNodataMask (some (-9999)) (infillWitFill g m)).2) := by
    intro g m hlt
    have hm : m 0 0 = false := by
      by_contra hcon
      simp only [Bool.not_eq_false] at hcon
      have : countValid 1 1 m = 1 := by
        simp [countValid, flatIndices_one_one, List.countP_cons, hcon]
      omega
    have h0 : countValid 1 1 m = 0 := by
      simp [countValid, flatIndices_one_one, List.countP_cons, hm]
    have h1 : countValid 1 1 ((getNodataMask (some (-9999))
        (infillWitFill g m)).2) = 1 := by
      have hcell : (getNodataMask (some (-9999))
          (infillWitFill g m)).2 0 0 = true := by
        simp [getNodataMask, infillWitFill, hm]
      simp [countValid, flatIndices_one_one, List.countP_cons, hcell]
    omega
  have hnot : ¬∀ r, r < 1 → ∀ c, c < 1 →
      (fun _ _ => (none : Option ℚ)) r c = some (-9999) := by
    intro hall
    exact absurd (hall 0 one_pos 0 one_pos) (by simp)
  exact ⟨hprog, hnot,
    (infill_spec infillWitFill (-9999) 1 1 (fun _ _ => none)
      (fun _ _ => some 0) hprog).2 hnot⟩

end Codem
